/-
Verification of the fullstack-app-backend REST API against its specification.

The repository has two server variants:
  * `server-dev.js`  — Express handlers over an in-memory data store;
  * `server.js`      — the same handlers over a PostgreSQL store (`init.sql`).

This file shallowly embeds both variants.  Timestamps are natural numbers
(the JS code uses ISO strings, whose ordering agrees with time), the bcrypt
library is modelled by a constructor that records the hashed password and its
salt (bcrypt.compare succeeds exactly on the originally hashed password), and
JSON Web Tokens are modelled by a payload plus a signature that can only be
produced from the payload and the signing secret (signature forgery is
impossible, which is the security assumption of the jsonwebtoken library).
-/
import Mathlib

namespace Backend

/-! ### Passwords: model of the bcrypt library -/

/-- Model of a bcrypt digest: `bcrypt.hash pw salt` stores the password and the
salt irreversibly; `bcrypt.compare` succeeds exactly on the hashed password. -/
structure HashedPassword where
  pw : String
  salt : Nat
deriving Repr, DecidableEq

def bcryptHash (pw : String) (salt : Nat) : HashedPassword := ⟨pw, salt⟩

def bcryptCompare (pw : String) (h : HashedPassword) : Bool := h.pw == pw

/-! ### Tokens: model of the jsonwebtoken library -/

/-- Payload signed into a session token by `jwt.sign({id, email}, secret,
{expiresIn: '24h'})`: the user id, the email, and the expiry instant. -/
structure TokenPayload where
  id : Nat
  email : String
  exp : Nat
deriving Repr, DecidableEq

/-- A signed token.  The signature is modelled as the pair of the signed
payload and the secret: it can be produced only from both, so a token whose
payload was altered no longer matches its signature. -/
structure Token where
  payload : TokenPayload
  sig : TokenPayload × String
deriving Repr, DecidableEq

/-- 24 hours in seconds: the `expiresIn: '24h'` option of `jwt.sign`. -/
def tokenLifetime : Nat := 24 * 60 * 60

/-- `jwt.sign({id, email}, secret, {expiresIn: '24h'})` at instant `now`. -/
def signToken (uid : Nat) (email : String) (secret : String) (now : Nat) : Token :=
  ⟨⟨uid, email, now + tokenLifetime⟩, (⟨uid, email, now + tokenLifetime⟩, secret)⟩

/-- `jwt.verify(token, secret)` at instant `now`: the signature must match the
payload and secret, and the token must not be expired (jsonwebtoken rejects a
token once the clock reaches `exp`). -/
def jwtVerify (t : Token) (secret : String) (now : Nat) : Option TokenPayload :=
  if t.sig = (t.payload, secret) ∧ now < t.payload.exp then some t.payload else none

/-! ### The Authorization header and the `authenticateToken` middleware

`authenticateToken` reads `req.headers['authorization']`, splits it on spaces
and takes element 1 (`authHeader && authHeader.split(' ')[1]`).  A word of the
split header is either the empty string (falsy in JS, so treated as a missing
token), a string that does not decode as a token (jwt.verify fails on it), or
an encoded token. -/

inductive Word where
  /-- An empty-string word of the split header (falsy in JS). -/
  | empty
  /-- A non-empty word that is not the encoding of any token
  (e.g. the scheme word `Bearer`); `jwt.verify` fails on it. -/
  | junk
  /-- A word encoding the token `t`. -/
  | tok (t : Token)
deriving Repr, DecidableEq

/-- `authHeader && authHeader.split(' ')[1]`: the candidate token word, `none`
when the header is absent, has no element 1, or element 1 is the empty string. -/
def extractToken (hdr : Option (List Word)) : Option Word :=
  match hdr with
  | none => none
  | some ws =>
    match ws[1]? with
    | none => none
    | some Word.empty => none
    | some w => some w

inductive AuthErr where
  /-- 401 "Access token required". -/
  | missingToken
  /-- 403 "Invalid or expired token". -/
  | invalidToken
deriving Repr, DecidableEq

/-- The `authenticateToken` middleware (identical in both variants): 401 when
no token is present, 403 when `jwt.verify` fails, otherwise it exposes the
decoded payload as `req.user`. -/
def authenticateToken (hdr : Option (List Word)) (secret : String) (now : Nat) :
    Except AuthErr TokenPayload :=
  match extractToken hdr with
  | none => .error .missingToken
  | some Word.empty => .error .missingToken
  | some Word.junk => .error .invalidToken
  | some (Word.tok t) =>
    match jwtVerify t secret now with
    | some p => .ok p
    | none => .error .invalidToken

/-! ### Data model of the stores -/

structure User where
  id : Nat
  email : String
  password : HashedPassword
  name : String
  created_at : Nat
deriving Repr, DecidableEq

structure Post where
  id : Nat
  title : String
  content : String
  user_id : Nat
  created_at : Nat
  updated_at : Nat
deriving Repr, DecidableEq

/-- The in-memory `dataStore` of server-dev.js; for the database variant the
same record models the `users` and `posts` tables with their SERIAL
counters. -/
structure DataStore where
  users : List User
  posts : List Post
  nextUserId : Nat
  nextPostId : Nat
deriving Repr, DecidableEq

def initStore : DataStore := ⟨[], [], 1, 1⟩

/-! ### String primitives

The JS string operations the handlers use are embedded structurally over the
character list of a `String`, so that every definition evaluates inside the
kernel. -/

/-- Whitespace trimming on a character list (both ends). -/
def trimChars (cs : List Char) : List Char :=
  ((cs.dropWhile Char.isWhitespace).reverse.dropWhile Char.isWhitespace).reverse

/-- JS `String.prototype.trim` (also the express-validator `trim`
sanitizer). -/
def strTrim (s : String) : String := ⟨trimChars s.data⟩

/-- Emptiness test on a string (JS falsiness of a string value). -/
def strEmpty (s : String) : Bool := s.data.isEmpty

/-- Split a character list on a separator (semantics of `String.split`). -/
def splitOnChar (cs : List Char) (sep : Char) : List (List Char) :=
  match cs with
  | [] => [[]]
  | c :: rest =>
    let r := splitOnChar rest sep
    if c == sep then [] :: r
    else
      match r with
      | g :: gs => (c :: g) :: gs
      | [] => [[c]]

/-! ### Request validation: model of the express-validator chains -/

/-- Model of `validator.isEmail`: one `@` separating a non-empty local part
from a non-empty domain that contains a dot.  (The library check is more
elaborate; every claim uses well-formedness only through this predicate.) -/
def isEmail (e : String) : Bool :=
  match splitOnChar e.data '@' with
  | [loc, dom] => !loc.isEmpty && !dom.isEmpty && dom.contains '.'
  | _ => false

/-- Model of the `normalizeEmail` sanitizer: case normalization. -/
def normalizeEmail (e : String) : String := ⟨e.data.map Char.toLower⟩

/-! ### HTTP error outcomes -/

inductive ApiError where
  /-- 400, express-validator errors array. -/
  | validationError
  /-- 409 "User already exists". -/
  | conflict
  /-- 401 "Invalid credentials". -/
  | invalidCredentials
  /-- 401 "Access token required". -/
  | missingToken
  /-- 403 "Invalid or expired token". -/
  | invalidToken
  /-- 404 "Post not found" / "User not found". -/
  | notFound
  /-- 403 "Unauthorized to edit/delete this post". -/
  | forbidden
  /-- 500 "Internal server error". -/
  | internal
deriving Repr, DecidableEq

def ApiError.status : ApiError → Nat
  | .validationError => 400
  | .conflict => 409
  | .invalidCredentials => 401
  | .missingToken => 401
  | .invalidToken => 403
  | .notFound => 404
  | .forbidden => 403
  | .internal => 500

def apiOfAuth : AuthErr → ApiError
  | .missingToken => .missingToken
  | .invalidToken => .invalidToken

/-! ### Auth service -/

/-- The user object serialized by the register and profile responses
(id, email, name, created_at — the password hash is never serialized). -/
structure UserView where
  id : Nat
  email : String
  name : String
  created_at : Nat
deriving Repr, DecidableEq

/-- The user object serialized by the login response (no created_at). -/
structure LoginUserView where
  id : Nat
  email : String
  name : String
deriving Repr, DecidableEq

structure RegisterOk where
  user : UserView
  token : Token
deriving Repr, DecidableEq

structure LoginOk where
  user : LoginUserView
  token : Token
deriving Repr, DecidableEq

/-- POST /api/auth/register.  Validators: `email` must satisfy `isEmail` and is
then normalized, `password` must have length ≥ 6, `name` must be non-empty
(the raw value; `trim` is a sanitizer applied after the check).  The handler
409s when a user with the normalized email exists, otherwise hashes the
password with a fresh `salt`, appends the new user and signs a token. -/
def register (s : DataStore) (email password name : String) (salt : Nat)
    (secret : String) (now : Nat) : Except ApiError RegisterOk × DataStore :=
  if !isEmail email || password.length < 6 || strEmpty name then
    (.error .validationError, s)
  else
    match s.users.find? (fun u => u.email == normalizeEmail email) with
    | some _ => (.error .conflict, s)
    | none =>
      (.ok ⟨⟨s.nextUserId, normalizeEmail email, strTrim name, now⟩,
            signToken s.nextUserId (normalizeEmail email) secret now⟩,
       { s with
         users := s.users ++
           [⟨s.nextUserId, normalizeEmail email, bcryptHash password salt,
             strTrim name, now⟩],
         nextUserId := s.nextUserId + 1 })

/-- POST /api/auth/login.  Validators: `email` well-formed then normalized,
`password` non-empty.  The handler answers 401 "Invalid credentials" both when
no user carries the email and when `bcrypt.compare` fails. -/
def login (s : DataStore) (email password : String) (secret : String) (now : Nat) :
    Except ApiError LoginOk × DataStore :=
  if !isEmail email || strEmpty password then (.error .validationError, s)
  else
    match s.users.find? (fun u => u.email == normalizeEmail email) with
    | none => (.error .invalidCredentials, s)
    | some u =>
      if bcryptCompare password u.password then
        (.ok ⟨⟨u.id, u.email, u.name⟩, signToken u.id u.email secret now⟩, s)
      else (.error .invalidCredentials, s)

/-- GET /api/users/profile (after `authenticateToken`): look the actor up by id. -/
def profile (s : DataStore) (actorId : Nat) : Except ApiError UserView × DataStore :=
  match s.users.find? (fun u => u.id == actorId) with
  | none => (.error .notFound, s)
  | some u => (.ok ⟨u.id, u.email, u.name, u.created_at⟩, s)

/-! ### Post service, in-memory variant (server-dev.js) -/

/-- A post as serialized by GET /api/posts: the post spread together with
`author_name` and `author_email`. -/
structure EnrichedPost where
  post : Post
  author_name : String
  author_email : String
deriving Repr, DecidableEq

/-- The author enrichment of server-dev.js: `dataStore.users.find(u => u.id ===
post.user_id)`, falling back to the `Unknown` placeholder. -/
def enrichPost (users : List User) (p : Post) : EnrichedPost :=
  match users.find? (fun u => u.id == p.user_id) with
  | some u => ⟨p, u.name, u.email⟩
  | none => ⟨p, "Unknown", "unknown@example.com"⟩

/-- The comparator `(a, b) => new Date(b.created_at) - new Date(a.created_at)`:
descending by creation instant. -/
def postDesc (a b : EnrichedPost) : Bool := b.post.created_at ≤ a.post.created_at

/-- GET /api/posts of server-dev.js: enrich every stored post with its author
(placeholder on a missing author) and sort by `created_at` descending.
`Array.prototype.sort` is modelled by the stable `mergeSort`. -/
def listPosts (s : DataStore) : List EnrichedPost :=
  (s.posts.map (enrichPost s.users)).mergeSort postDesc

/-- POST /api/posts (after `authenticateToken`).  Validators: `title` and
`content` non-empty (raw values; `trim` sanitizes after the check).  The
handler appends a post owned by the actor, timestamped `now` twice. -/
def createPost (s : DataStore) (actorId : Nat) (title content : String)
    (now : Nat) : Except ApiError Post × DataStore :=
  if strEmpty title || strEmpty content then (.error .validationError, s)
  else
    let p : Post := ⟨s.nextPostId, strTrim title, strTrim content, actorId, now, now⟩
    (.ok p, { s with posts := s.posts ++ [p], nextPostId := s.nextPostId + 1 })

/-- `if (title) post.title = title` after the `optional().trim()` sanitizer: a
field is applied only when supplied and non-empty after trimming. -/
def applyField (cur : String) (v : Option String) : String :=
  match v with
  | some t => if strEmpty (strTrim t) then cur else strTrim t
  | none => cur

/-- The post after `if (title) post.title = title; if (content) post.content =
content; post.updated_at = ...`: supplied non-empty fields applied and the
update instant recorded. -/
def appliedPost (post : Post) (title content : Option String) (now : Nat) :
    Post :=
  { post with
    title := applyField post.title title,
    content := applyField post.content content,
    updated_at := now }

/-- In-place update of the first post carrying `postId`
(`dataStore.posts[postIndex]` mutation). -/
def updateFirst (ps : List Post) (postId : Nat) (q : Post) : List Post :=
  match ps with
  | [] => []
  | p :: rest => if p.id == postId then q :: rest else p :: updateFirst rest postId q

/-- `dataStore.posts.splice(postIndex, 1)`: remove the first post carrying
`postId`. -/
def removeFirst (ps : List Post) (postId : Nat) : List Post :=
  match ps with
  | [] => []
  | p :: rest => if p.id == postId then rest else p :: removeFirst rest postId

/-- PUT /api/posts/:id of server-dev.js (after `authenticateToken`, with the id
already parsed): 404 when no post carries the id, 403 when the actor is not
the owner, otherwise apply the supplied non-empty fields and refresh
`updated_at`. -/
def updatePost (s : DataStore) (actorId postId : Nat)
    (title content : Option String) (now : Nat) :
    Except ApiError Post × DataStore :=
  match s.posts.find? (fun p => p.id == postId) with
  | none => (.error .notFound, s)
  | some post =>
    if post.user_id != actorId then (.error .forbidden, s)
    else
      (.ok (appliedPost post title content now),
       { s with
         posts := updateFirst s.posts postId
           (appliedPost post title content now) })

/-- DELETE /api/posts/:id of server-dev.js (after `authenticateToken`, with the
id already parsed): 404 when no post carries the id, 403 when the actor is not
the owner, otherwise splice the post out. -/
def deletePost (s : DataStore) (actorId postId : Nat) :
    Except ApiError Unit × DataStore :=
  match s.posts.find? (fun p => p.id == postId) with
  | none => (.error .notFound, s)
  | some post =>
    if post.user_id != actorId then (.error .forbidden, s)
    else (.ok (), { s with posts := removeFirst s.posts postId })

/-! ### Route-parameter parsing

server-dev.js parses `:id` with `parseInt` (leading-digit parse, `NaN` on no
digits — and `NaN` matches no stored id, so the lookup 404s); server.js hands
the raw string to PostgreSQL, whose cast to `integer` rejects any non-numeral
and the thrown error is mapped to a 500. -/

/-- Decimal value of a digit run. -/
def digitsToNat (ds : List Char) : Nat :=
  ds.foldl (fun n c => n * 10 + (c.toNat - 48)) 0

/-- `parseInt(idStr)` for the non-negative inputs a route parameter can carry:
the value of the leading digit run, `none` (`NaN`) when there is none. -/
def parseIntJs (idStr : String) : Option Nat :=
  let ds := idStr.data.takeWhile Char.isDigit
  if ds.isEmpty then none else some (digitsToNat ds)

/-- The PostgreSQL cast of a route parameter to `integer` (`posts.id` is
SERIAL, an int4): `some` exactly on a plain decimal numeral whose value fits
int4 (at most 2147483647); anything else — a non-numeral or an out-of-range
value — throws, which the handler maps to a 500. -/
def pgCastInt (idStr : String) : Option Nat :=
  if !idStr.data.isEmpty && idStr.data.all Char.isDigit &&
      digitsToNat idStr.data ≤ 2147483647 then
    some (digitsToNat idStr.data)
  else none

/-! ### Post service, database variant (server.js)

The register, login and profile handlers of server.js issue SQL queries whose
semantics coincide with the in-memory definitions above (SELECT by unique
email / id, INSERT RETURNING), so those definitions are shared.  The post
handlers differ and are embedded separately. -/

/-- GET /api/posts of server.js: `JOIN users u ON p.user_id = u.id` — a post
whose author row is missing is excluded, not given a placeholder. -/
def listPostsDb (s : DataStore) : List EnrichedPost :=
  (s.posts.filterMap (fun p =>
    (s.users.find? (fun u => u.id == p.user_id)).map
      (fun u => EnrichedPost.mk p u.name u.email))).mergeSort postDesc

/-- POST /api/posts of server.js: as the in-memory variant, except that the
`posts.user_id` FOREIGN KEY of init.sql rejects an owner id with no user row
and the thrown error is mapped to a 500. -/
def createPostDb (s : DataStore) (actorId : Nat) (title content : String)
    (now : Nat) : Except ApiError Post × DataStore :=
  if strEmpty title || strEmpty content then (.error .validationError, s)
  else if (s.users.find? (fun u => u.id == actorId)).isNone then
    (.error .internal, s)
  else
    let p : Post := ⟨s.nextPostId, strTrim title, strTrim content, actorId, now, now⟩
    (.ok p, { s with posts := s.posts ++ [p], nextPostId := s.nextPostId + 1 })

/-- `UPDATE posts SET ... WHERE id = $n`: every row carrying the id is
updated (the primary key makes that row unique in reachable stores). -/
def updateAll (ps : List Post) (postId : Nat) (q : Post) : List Post :=
  ps.map (fun p => if p.id == postId then q else p)

/-- PUT /api/posts/:id of server.js (after `authenticateToken`, with the cast
id): SELECT the owner, 404 on no row, 403 on an ownership mismatch, then
UPDATE the supplied non-empty fields and `updated_at = NOW()`. -/
def updatePostDb (s : DataStore) (actorId postId : Nat)
    (title content : Option String) (now : Nat) :
    Except ApiError Post × DataStore :=
  match s.posts.find? (fun p => p.id == postId) with
  | none => (.error .notFound, s)
  | some post =>
    if post.user_id != actorId then (.error .forbidden, s)
    else
      (.ok (appliedPost post title content now),
       { s with
         posts := updateAll s.posts postId
           (appliedPost post title content now) })

/-- DELETE /api/posts/:id of server.js: `DELETE FROM posts WHERE id = $1`
after the same existence and ownership checks. -/
def deletePostDb (s : DataStore) (actorId postId : Nat) :
    Except ApiError Unit × DataStore :=
  match s.posts.find? (fun p => p.id == postId) with
  | none => (.error .notFound, s)
  | some post =>
    if post.user_id != actorId then (.error .forbidden, s)
    else (.ok (), { s with posts := s.posts.filter (fun p => !(p.id == postId)) })

/-! ### Request sequences over the full HTTP surface

A request carries everything the handler reads: the body fields, the
Authorization header for protected routes, the raw `:id` route parameter, and
the ambient instant `now` (plus the bcrypt salt drawn during registration). -/

inductive Request where
  | register (email password name : String) (salt : Nat) (now : Nat)
  | login (email password : String) (now : Nat)
  | profile (hdr : Option (List Word)) (now : Nat)
  | listPosts
  | createPost (hdr : Option (List Word)) (title content : String) (now : Nat)
  | updatePost (hdr : Option (List Word)) (idStr : String)
      (title content : Option String) (now : Nat)
  | deletePost (hdr : Option (List Word)) (idStr : String) (now : Nat)
deriving Repr, DecidableEq

/-- An observable response body (paired with the status carried by the
error taxonomy). -/
inductive Response where
  | registered (u : UserView) (t : Token)
  | loggedIn (u : LoginUserView) (t : Token)
  | profileUser (u : UserView)
  | posts (ps : List EnrichedPost)
  | postCreated (p : Post)
  | postUpdated (p : Post)
  | postDeleted
  | err (e : ApiError)
deriving Repr, DecidableEq

def ofExcept {α : Type} (f : α → Response) : Except ApiError α × DataStore →
    Response × DataStore
  | (.ok a, s) => (f a, s)
  | (.error e, s) => (.err e, s)

/-- One request against the in-memory variant. -/
def stepDev (secret : String) (s : DataStore) : Request → Response × DataStore
  | .register email password name salt now =>
    ofExcept (fun r => .registered r.user r.token) (register s email password name salt secret now)
  | .login email password now =>
    ofExcept (fun r => .loggedIn r.user r.token) (login s email password secret now)
  | .profile hdr now =>
    match authenticateToken hdr secret now with
    | .error e => (.err (apiOfAuth e), s)
    | .ok payload => ofExcept .profileUser (profile s payload.id)
  | .listPosts => (.posts (listPosts s), s)
  | .createPost hdr title content now =>
    match authenticateToken hdr secret now with
    | .error e => (.err (apiOfAuth e), s)
    | .ok payload => ofExcept .postCreated (createPost s payload.id title content now)
  | .updatePost hdr idStr title content now =>
    match authenticateToken hdr secret now with
    | .error e => (.err (apiOfAuth e), s)
    | .ok payload =>
      match parseIntJs idStr with
      | none => (.err .notFound, s)
      | some pid => ofExcept .postUpdated (updatePost s payload.id pid title content now)
  | .deletePost hdr idStr now =>
    match authenticateToken hdr secret now with
    | .error e => (.err (apiOfAuth e), s)
    | .ok payload =>
      match parseIntJs idStr with
      | none => (.err .notFound, s)
      | some pid => ofExcept (fun _ => .postDeleted) (deletePost s payload.id pid)

/-- One request against the database variant. -/
def stepDb (secret : String) (s : DataStore) : Request → Response × DataStore
  | .register email password name salt now =>
    ofExcept (fun r => .registered r.user r.token) (register s email password name salt secret now)
  | .login email password now =>
    ofExcept (fun r => .loggedIn r.user r.token) (login s email password secret now)
  | .profile hdr now =>
    match authenticateToken hdr secret now with
    | .error e => (.err (apiOfAuth e), s)
    | .ok payload => ofExcept .profileUser (profile s payload.id)
  | .listPosts => (.posts (listPostsDb s), s)
  | .createPost hdr title content now =>
    match authenticateToken hdr secret now with
    | .error e => (.err (apiOfAuth e), s)
    | .ok payload => ofExcept .postCreated (createPostDb s payload.id title content now)
  | .updatePost hdr idStr title content now =>
    match authenticateToken hdr secret now with
    | .error e => (.err (apiOfAuth e), s)
    | .ok payload =>
      match pgCastInt idStr with
      | none => (.err .internal, s)
      | some pid => ofExcept .postUpdated (updatePostDb s payload.id pid title content now)
  | .deletePost hdr idStr now =>
    match authenticateToken hdr secret now with
    | .error e => (.err (apiOfAuth e), s)
    | .ok payload =>
      match pgCastInt idStr with
      | none => (.err .internal, s)
      | some pid => ofExcept (fun _ => .postDeleted) (deletePostDb s payload.id pid)

/-- Run a request sequence against the in-memory variant, collecting the
responses. -/
def runDev (secret : String) (s : DataStore) : List Request → List Response × DataStore
  | [] => ([], s)
  | r :: rs =>
    let (resp, s') := stepDev secret s r
    let (resps, s'') := runDev secret s' rs
    (resp :: resps, s'')

/-- Run a request sequence against the database variant. -/
def runDb (secret : String) (s : DataStore) : List Request → List Response × DataStore
  | [] => ([], s)
  | r :: rs =>
    let (resp, s') := stepDb secret s r
    let (resps, s'') := runDb secret s' rs
    (resp :: resps, s'')

/-! ### Well-formedness for comparing the two variants

The variants demonstrably diverge on a route id that is not a plain decimal
numeral (`parseInt` prefix-parses or yields `NaN`; the SQL cast throws, which
the handler maps to a 500) and on a post whose author row is missing (the
placeholder against the inner join).  The following predicates carve out the
traces on which the handlers can agree. -/

/-- The request's route id parameter, when there is one, is a plain decimal
numeral whose value fits PostgreSQL's int4, on which `parseInt` and the SQL
integer cast agree. -/
def goodIdB : Request → Bool
  | .updatePost _ idStr _ _ _ =>
    !idStr.data.isEmpty && idStr.data.all Char.isDigit &&
      digitsToNat idStr.data ≤ 2147483647
  | .deletePost _ idStr _ =>
    !idStr.data.isEmpty && idStr.data.all Char.isDigit &&
      digitsToNat idStr.data ≤ 2147483647
  | _ => true

/-- The token accepted for a creation names a registered user: the in-memory
variant lets any authenticated actor id own a post, while the FOREIGN KEY of
init.sql requires a user row. -/
def reqOkB (secret : String) (s : DataStore) : Request → Bool
  | .createPost hdr _ _ now =>
    match authenticateToken hdr secret now with
    | .ok p => s.users.any (fun u => u.id == p.id)
    | .error _ => true
  | _ => true

/-- Well-formedness of a trace, along the states of the in-memory run. -/
def traceOkB (secret : String) (s : DataStore) : List Request → Bool
  | [] => true
  | r :: rs => reqOkB secret s r && goodIdB r &&
      traceOkB secret (stepDev secret s r).2 rs

/-- The store invariant every run maintains: post ids are pairwise distinct
and below the id counter, and every post's author has a user row. -/
structure Inv (s : DataStore) : Prop where
  postsNodup : (s.posts.map (fun p => p.id)).Nodup
  postIdLt : ∀ p ∈ s.posts, p.id < s.nextPostId
  authors : ∀ p ∈ s.posts,
    (s.users.find? (fun u => u.id == p.user_id)).isSome

/-! ## Theorems -/

/-- A concrete store used to exercise theorems with hypotheses: one user
(id 1) owning one post (id 1). -/
def demoStore : DataStore :=
  ⟨[⟨1, "a@b.c", bcryptHash "secret1" 7, "Alice", 10⟩],
   [⟨1, "Hi", "World", 1, 20, 20⟩], 2, 2⟩

/-- Unfolding of `extractToken` on a present header. -/
theorem extractToken_eq (ws : List Word) :
    extractToken (some ws) =
      match ws[1]? with
      | none => none
      | some Word.empty => none
      | some w => some w := rfl

/-- `strEmpty` decides emptiness of a string. -/
theorem strEmpty_iff (u : String) : strEmpty u = true ↔ u = "" := by
  cases u with
  | mk d =>
    simp only [strEmpty, List.isEmpty_iff]
    exact ⟨fun h => by rw [h], fun h => by simpa using congrArg String.data h⟩

/-- **C2.** For every authenticated actor and post id: when no post carries
the id, `updatePost` and `deletePost` answer 404 NotFound and change nothing;
when the post exists but the actor is not its owner, both answer 403
Forbidden and change nothing — for every non-owner actor, whatever else that
actor owns; and a mutation or deletion goes through only for the owner. -/
theorem update_delete_ownership (s : DataStore) (actorId postId : Nat)
    (title content : Option String) (now : Nat) :
    (s.posts.find? (fun p => p.id == postId) = none →
      updatePost s actorId postId title content now = (.error .notFound, s) ∧
      deletePost s actorId postId = (.error .notFound, s)) ∧
    (∀ post, s.posts.find? (fun p => p.id == postId) = some post →
      post.user_id ≠ actorId →
      updatePost s actorId postId title content now = (.error .forbidden, s) ∧
      deletePost s actorId postId = (.error .forbidden, s)) ∧
    (∀ p₂ s₂, updatePost s actorId postId title content now = (.ok p₂, s₂) →
      ∃ post, s.posts.find? (fun p => p.id == postId) = some post ∧
        post.user_id = actorId) ∧
    (∀ s₂, deletePost s actorId postId = (.ok (), s₂) →
      ∃ post, s.posts.find? (fun p => p.id == postId) = some post ∧
        post.user_id = actorId) := by
  refine ⟨fun h => ?_, fun post h hne => ?_, fun p₂ s₂ h => ?_, fun s₂ h => ?_⟩
  · simp [updatePost, deletePost, h]
  · simp [updatePost, deletePost, h, bne_iff_ne, hne]
  · unfold updatePost at h
    cases hf : s.posts.find? (fun p => p.id == postId) with
    | none => simp [hf] at h
    | some post =>
      refine ⟨post, rfl, ?_⟩
      rw [hf] at h
      by_cases ho : post.user_id = actorId
      · exact ho
      · simp [bne_iff_ne, ho] at h
  · unfold deletePost at h
    cases hf : s.posts.find? (fun p => p.id == postId) with
    | none => simp [hf] at h
    | some post =>
      refine ⟨post, rfl, ?_⟩
      rw [hf] at h
      by_cases ho : post.user_id = actorId
      · exact ho
      · simp [bne_iff_ne, ho] at h

/-- Witness for **C2** at a concrete input: actor 2 is not the owner of
post 1 of `demoStore`, so both mutations answer 403 Forbidden. -/
theorem update_delete_ownership_witness :
    updatePost demoStore 2 1 none none 30 = (.error .forbidden, demoStore) ∧
    deletePost demoStore 2 1 = (.error .forbidden, demoStore) :=
  (update_delete_ownership demoStore 2 1 none none 30).2.1
    ⟨1, "Hi", "World", 1, 20, 20⟩ (by decide) (by decide)

/-- **C5.** On every successful `updatePost`: a field changes only when it
was explicitly supplied and non-empty after trimming, in which case it takes
the supplied (sanitized) value; id, owner and `created_at` are unchanged;
and `updated_at` is set to the call instant on every successful update —
hence never decreasing under a monotone clock — whatever fields were
supplied.  Beyond the touched post, the store keeps its users, counters, and
every other post. -/
theorem updatePost_frame (s : DataStore) (actorId postId : Nat)
    (title content : Option String) (now : Nat) (p₂ : Post) (s₂ : DataStore)
    (h : updatePost s actorId postId title content now = (.ok p₂, s₂)) :
    ∃ post, s.posts.find? (fun p => p.id == postId) = some post ∧
      (title = none → p₂.title = post.title) ∧
      (∀ t, title = some t → strTrim t = "" → p₂.title = post.title) ∧
      (∀ t, title = some t → strTrim t ≠ "" → p₂.title = strTrim t) ∧
      (content = none → p₂.content = post.content) ∧
      (∀ c, content = some c → strTrim c = "" → p₂.content = post.content) ∧
      (∀ c, content = some c → strTrim c ≠ "" → p₂.content = strTrim c) ∧
      p₂.id = post.id ∧ p₂.user_id = post.user_id ∧
      p₂.created_at = post.created_at ∧
      p₂.updated_at = now ∧
      (post.updated_at ≤ now → post.updated_at ≤ p₂.updated_at) ∧
      s₂.users = s.users ∧ s₂.nextUserId = s.nextUserId ∧
      s₂.nextPostId = s.nextPostId ∧
      s₂.posts = updateFirst s.posts postId p₂ := by
  unfold updatePost at h
  cases hf : s.posts.find? (fun p => p.id == postId) with
  | none => simp [hf] at h
  | some post =>
    rw [hf] at h
    by_cases ho : post.user_id = actorId
    · have hcond : (post.user_id != actorId) = false := by simp [ho]
      simp only [hcond, Bool.false_eq_true, if_false] at h
      obtain ⟨hp, hs⟩ := Prod.mk.injEq .. ▸ h
      obtain rfl : p₂ = _ := (Except.ok.injEq .. ▸ hp.symm)
      refine ⟨post, rfl, ?_⟩
      subst hs
      refine ⟨fun ht => by simp [ht, appliedPost, applyField],
        fun t ht he => by
          simp [ht, appliedPost, applyField, (strEmpty_iff (strTrim t)).mpr he],
        fun t ht he => by
          have hx : strEmpty (strTrim t) = false :=
            Bool.eq_false_iff.mpr fun hx => he ((strEmpty_iff (strTrim t)).mp hx)
          simp [ht, appliedPost, applyField, hx],
        fun hc => by simp [hc, appliedPost, applyField],
        fun c hc he => by
          simp [hc, appliedPost, applyField, (strEmpty_iff (strTrim c)).mpr he],
        fun c hc he => by
          have hx : strEmpty (strTrim c) = false :=
            Bool.eq_false_iff.mpr fun hx => he ((strEmpty_iff (strTrim c)).mp hx)
          simp [hc, appliedPost, applyField, hx],
        rfl, rfl, rfl, rfl, fun hle => hle, rfl, rfl, rfl, rfl⟩
    · simp [bne_iff_ne, ho] at h

/-- Witness for **C5** at a concrete input: the owner updates post 1 of
`demoStore` with a fresh title and a content that trims to empty, so the
title changes, the content stays, and `updated_at` becomes 30. -/
theorem updatePost_frame_witness :
    ∃ post, demoStore.posts.find? (fun p => p.id == 1) = some post ∧
      post.title = "Hi" ∧ post.content = "World" ∧
      ∀ p₂ s₂,
        updatePost demoStore 1 1 (some " Hello ") (some "  ") 30 = (.ok p₂, s₂) →
        p₂.title = "Hello" ∧ p₂.content = post.content ∧ p₂.updated_at = 30 := by
  refine ⟨⟨1, "Hi", "World", 1, 20, 20⟩, by decide, rfl, rfl, fun p₂ s₂ h => ?_⟩
  obtain ⟨post, hf, -, -, h3, -, h5, -, -, -, -, h10, -⟩ :=
    updatePost_frame demoStore 1 1 (some " Hello ") (some "  ") 30 p₂ s₂ h
  obtain rfl : post = ⟨1, "Hi", "World", 1, 20, 20⟩ := by
    have : some post = some (⟨1, "Hi", "World", 1, 20, 20⟩ : Post) := by
      rw [← hf]; decide
    exact Option.some.injEq .. ▸ this
  refine ⟨?_, h5 "  " rfl (by decide), h10⟩
  have := h3 " Hello " rfl (by decide)
  simpa [show strTrim " Hello " = "Hello" from by decide] using this

/-- **C9.** An `updatePost` by the owner of an existing post that supplies
neither field, or only fields that trim to empty, is not a validation error:
it succeeds, keeps `title` and `content` as they were, and still refreshes
`updated_at`. -/
theorem updatePost_noop_refreshes (s : DataStore) (actorId postId now : Nat)
    (title content : Option String) (post : Post)
    (hfind : s.posts.find? (fun p => p.id == postId) = some post)
    (howner : post.user_id = actorId)
    (ht : ∀ t, title = some t → strTrim t = "")
    (hc : ∀ c, content = some c → strTrim c = "") :
    (updatePost s actorId postId title content now).1 =
      .ok { post with updated_at := now } := by
  unfold updatePost
  rw [hfind]
  have hcond : (post.user_id != actorId) = false := by simp [howner]
  simp only [hcond, Bool.false_eq_true, if_false]
  have h₁ : applyField post.title title = post.title := by
    cases title with
    | none => rfl
    | some t => simp [applyField, strEmpty, ht t rfl]
  have h₂ : applyField post.content content = post.content := by
    cases content with
    | none => rfl
    | some c => simp [applyField, strEmpty, hc c rfl]
  simp [appliedPost, h₁, h₂]

/-- Witness for **C9** at a concrete input: the owner updates post 1 of
`demoStore` supplying no title and a whitespace content; the call succeeds
and only `updated_at` moves. -/
theorem updatePost_noop_refreshes_witness :
    (updatePost demoStore 1 1 none (some " ") 30).1 =
      .ok ⟨1, "Hi", "World", 1, 20, 30⟩ :=
  updatePost_noop_refreshes demoStore 1 1 30 none (some " ")
    ⟨1, "Hi", "World", 1, 20, 20⟩ (by decide) rfl
    (fun t ht => by cases ht) (fun c hc => by cases hc; decide)

/-- **C4, counterexample.**  The claim's "if and only if" fails as stated: a
login request whose email is malformed is answered 400 ValidationError by the
validator chain even though no user with that email exists, where the claim
requires 401 InvalidCredentials. -/
theorem login_iff_counterexample :
    initStore.users.find?
        (fun u => u.email == normalizeEmail "nodomain") = none ∧
    (login initStore "nodomain" "password" "s" 0).1 = .error .validationError ∧
    ApiError.validationError ≠ ApiError.invalidCredentials :=
  ⟨by decide, rfl, by decide⟩

/-- **C4, amended.**  For a login request that passes input validation (a
well-formed email and a non-empty password): the outcome is 401
InvalidCredentials exactly when no user carries the normalized email or the
hash comparison fails — and the error value is the same in both cases, so
the caller cannot tell them apart; the store is never changed; and a success
returns the matched user without the password hash, plus a token signed for
that user. -/
theorem login_invalid_credentials (s : DataStore) (email password : String)
    (secret : String) (now : Nat)
    (hemail : isEmail email = true) (hpassword : password ≠ "") :
    ((login s email password secret now).1 = .error .invalidCredentials ↔
      (∀ u ∈ s.users, u.email ≠ normalizeEmail email) ∨
      (∃ u, s.users.find? (fun v => v.email == normalizeEmail email) = some u ∧
        bcryptCompare password u.password = false)) ∧
    (login s email password secret now).2 = s ∧
    (∀ r, (login s email password secret now).1 = .ok r →
      ∃ u, s.users.find? (fun v => v.email == normalizeEmail email) = some u ∧
        bcryptCompare password u.password = true ∧
        r.user = ⟨u.id, u.email, u.name⟩ ∧
        r.token = signToken u.id u.email secret now) := by
  have hp : strEmpty password = false :=
    Bool.eq_false_iff.mpr fun hx => hpassword ((strEmpty_iff password).mp hx)
  refine ⟨?_, ?_, ?_⟩
  · unfold login
    simp only [hemail, hp, Bool.not_true, Bool.false_or, Bool.false_eq_true,
      if_false]
    cases hf : s.users.find? (fun v => v.email == normalizeEmail email) with
    | none =>
      simp only [List.find?_eq_none, beq_iff_eq] at hf
      exact iff_of_true rfl (Or.inl hf)
    | some u =>
      have hmem := List.mem_of_find?_eq_some hf
      have hemailu : u.email = normalizeEmail email := by
        simpa using List.find?_some hf
      by_cases hb : bcryptCompare password u.password
      · simp only [hb, if_true]
        apply iff_of_false
        · intro hcontr; cases hcontr
        · rintro (hall | ⟨u₂, hu₂, hcmp⟩)
          · exact hall u hmem hemailu
          · obtain rfl : u = u₂ := by
              injection hu₂
            rw [hb] at hcmp
            cases hcmp
      · simp only [Bool.eq_false_iff.mpr hb, Bool.false_eq_true, if_false]
        exact iff_of_true trivial (Or.inr ⟨u, rfl, Bool.eq_false_iff.mpr hb⟩)
  · unfold login
    simp only [hemail, hp, Bool.not_true, Bool.false_or, Bool.false_eq_true,
      if_false]
    cases hf : s.users.find? (fun v => v.email == normalizeEmail email) with
    | none => rfl
    | some u => by_cases hb : bcryptCompare password u.password <;> simp [hb]
  · intro r hr
    unfold login at hr
    simp only [hemail, hp, Bool.not_true, Bool.false_or, Bool.false_eq_true,
      if_false] at hr
    cases hf : s.users.find? (fun v => v.email == normalizeEmail email) with
    | none => rw [hf] at hr; cases hr
    | some u =>
      rw [hf] at hr
      by_cases hb : bcryptCompare password u.password
      · refine ⟨u, rfl, hb, ?_⟩
        simp only [hb, if_true] at hr
        cases hr
        exact ⟨rfl, rfl⟩
      · simp [Bool.eq_false_iff.mpr hb] at hr

/-- Witness for **C4 (amended)** at a concrete input: a wrong password for
the registered user of `demoStore` is answered InvalidCredentials. -/
theorem login_invalid_credentials_witness :
    (login demoStore "a@b.c" "wrongpw" "s" 40).1 =
      .error .invalidCredentials := by
  have h := (login_invalid_credentials demoStore "a@b.c" "wrongpw" "s" 40
    (by decide) (by decide)).1
  exact h.mpr (Or.inr ⟨⟨1, "a@b.c", bcryptHash "secret1" 7, "Alice", 10⟩,
    by decide, by decide⟩)

/-- **C6.**  Registration with a password shorter than 6 characters always
fails 400 ValidationError and leaves the store unchanged; with a password of
length ≥ 6, a well-formed email and a name that is non-empty after trimming,
registration succeeds (201 with the stored user sans hash and a signed
token) and appends exactly one user — unless a user already carries the
normalized email, in which case it fails 409 Conflict and leaves the store
unchanged. -/
theorem register_password_policy (s : DataStore) (email password name : String)
    (salt : Nat) (secret : String) (now : Nat) :
    (password.length < 6 →
      register s email password name salt secret now =
        (.error .validationError, s)) ∧
    (isEmail email = true → 6 ≤ password.length → strTrim name ≠ "" →
      ((∀ u, s.users.find? (fun v => v.email == normalizeEmail email) = some u →
          register s email password name salt secret now =
            (.error .conflict, s)) ∧
       (s.users.find? (fun v => v.email == normalizeEmail email) = none →
          register s email password name salt secret now =
            (.ok ⟨⟨s.nextUserId, normalizeEmail email, strTrim name, now⟩,
                  signToken s.nextUserId (normalizeEmail email) secret now⟩,
             { s with
               users := s.users ++
                 [⟨s.nextUserId, normalizeEmail email,
                   bcryptHash password salt, strTrim name, now⟩],
               nextUserId := s.nextUserId + 1 })))) := by
  constructor
  · intro hshort
    unfold register
    have : decide (password.length < 6) = true := by simpa using hshort
    simp [this]
  · intro hemail hlen hname
    have hne : strEmpty name = false := by
      apply Bool.eq_false_iff.mpr
      intro hx
      apply hname
      have : name = "" := (strEmpty_iff name).mp hx
      rw [this]
      rfl
    have hlt : decide (password.length < 6) = false := by
      simp [Nat.not_lt.mpr hlen]
    constructor
    · intro u hu
      unfold register
      simp [hemail, hlt, hne, hu]
    · intro hnone
      unfold register
      simp [hemail, hlt, hne, hnone]

/-- Witness for **C6** at concrete inputs: a short password is rejected, and
a fresh valid registration on `demoStore` succeeds with user id 2. -/
theorem register_password_policy_witness :
    register demoStore "x@y.z" "abc" "Bob" 3 "s" 50 =
      (.error .validationError, demoStore) ∧
    register demoStore "x@y.z" "abcdef" "Bob" 3 "s" 50 =
      (.ok ⟨⟨2, "x@y.z", "Bob", 50⟩, signToken 2 "x@y.z" "s" 50⟩,
       { demoStore with
         users := demoStore.users ++
           [⟨2, "x@y.z", bcryptHash "abcdef" 3, "Bob", 50⟩],
         nextUserId := 3 }) := by
  constructor
  · exact (register_password_policy demoStore "x@y.z" "abc" "Bob" 3 "s" 50).1
      (by decide)
  · have h := ((register_password_policy demoStore "x@y.z" "abcdef" "Bob" 3
      "s" 50).2 (by decide) (by decide) (by decide)).2 (by decide)
    rw [h]
    rfl

/-- Authenticating a header carrying a freshly signed token: accepted with
the signed payload strictly inside the 24-hour window, rejected as invalid
from the expiry instant on. -/
theorem authenticate_signToken (uid : Nat) (em secret : String) (t0 now : Nat) :
    (now < t0 + tokenLifetime →
      authenticateToken (some [.junk, .tok (signToken uid em secret t0)])
          secret now = .ok ⟨uid, em, t0 + tokenLifetime⟩) ∧
    (t0 + tokenLifetime ≤ now →
      authenticateToken (some [.junk, .tok (signToken uid em secret t0)])
          secret now = .error .invalidToken) := by
  constructor
  · intro hlt
    simp [authenticateToken, extractToken, jwtVerify, signToken, hlt]
  · intro hge
    simp [authenticateToken, extractToken, jwtVerify, signToken,
      Nat.not_lt.mpr hge]

/-- **C3.**  `authenticate` fails 401 MissingToken exactly when the header
carries no token word (absent header, too few words, or an empty word at
index 1); fails 403 InvalidToken exactly when a credential is present but
signature or expiry verification fails; on success it exposes exactly the
`{user_id, email}` pair signed into the token.  A token issued by register
or login with correct credentials is accepted strictly within 24 hours of
issuance and rejected from the 24-hour mark on, and a token whose payload or
signature was altered is rejected. -/
theorem authenticate_token_spec (hdr : Option (List Word)) (secret : String)
    (now t0 : Nat) (t : Token) (s : DataStore) (email password : String) :
    (authenticateToken hdr secret now = .error .missingToken ↔
      hdr = none ∨ ∃ ws, hdr = some ws ∧
        (ws[1]? = none ∨ ws[1]? = some .empty)) ∧
    (authenticateToken hdr secret now = .error .invalidToken ↔
      (∃ ws, hdr = some ws ∧ ws[1]? = some .junk) ∨
      (∃ ws t₂, hdr = some ws ∧ ws[1]? = some (.tok t₂) ∧
        jwtVerify t₂ secret now = none)) ∧
    (∀ p, authenticateToken hdr secret now = .ok p →
      ∃ ws t₂, hdr = some ws ∧ ws[1]? = some (.tok t₂) ∧
        t₂.payload = p ∧ t₂.sig = (p, secret) ∧ now < p.exp) ∧
    (∀ r s₂ name salt,
      register s email password name salt secret t0 = (.ok r, s₂) →
      (now < t0 + tokenLifetime →
        authenticateToken (some [.junk, .tok r.token]) secret now =
          .ok ⟨r.user.id, r.user.email, t0 + tokenLifetime⟩) ∧
      (t0 + tokenLifetime ≤ now →
        authenticateToken (some [.junk, .tok r.token]) secret now =
          .error .invalidToken)) ∧
    (∀ r, (login s email password secret t0).1 = .ok r →
      (now < t0 + tokenLifetime →
        authenticateToken (some [.junk, .tok r.token]) secret now =
          .ok ⟨r.user.id, r.user.email, t0 + tokenLifetime⟩) ∧
      (t0 + tokenLifetime ≤ now →
        authenticateToken (some [.junk, .tok r.token]) secret now =
          .error .invalidToken)) ∧
    (t.sig = (t.payload, secret) →
      (∀ p₂, p₂ ≠ t.payload →
        jwtVerify ⟨p₂, t.sig⟩ secret now = none) ∧
      (∀ sg, sg ≠ (t.payload, secret) →
        jwtVerify ⟨t.payload, sg⟩ secret now = none)) := by
  refine ⟨?_, ?_, ?_, ?_, ?_, ?_⟩
  · cases hdr with
    | none => simp [authenticateToken, extractToken]
    | some ws =>
      unfold authenticateToken
      rw [extractToken_eq]
      cases hw : ws[1]? with
      | none =>
        simp [hw]
        exact List.getElem?_eq_none_iff.mp hw
      | some w =>
        cases w with
        | empty => simp [hw]
        | junk =>
          simp [hw]
          exact (List.getElem?_eq_some_iff.mp hw).1
        | tok t₂ =>
          cases hv : jwtVerify t₂ secret now with
          | none =>
            simp [hw, hv]
            exact (List.getElem?_eq_some_iff.mp hw).1
          | some p =>
            simp [hw, hv]
            exact (List.getElem?_eq_some_iff.mp hw).1
  · cases hdr with
    | none => simp [authenticateToken, extractToken]
    | some ws =>
      unfold authenticateToken
      rw [extractToken_eq]
      cases hw : ws[1]? with
      | none => simp [hw]
      | some w =>
        cases w with
        | empty => simp [hw]
        | junk => simp [hw]
        | tok t₂ =>
          cases hv : jwtVerify t₂ secret now with
          | none => simp [hw, hv]
          | some p => simp [hw, hv]
  · intro p hp
    cases hdr with
    | none => simp [authenticateToken, extractToken] at hp
    | some ws =>
      unfold authenticateToken at hp
      rw [extractToken_eq] at hp
      revert hp
      cases hw : ws[1]? with
      | none => intro hp; simp at hp
      | some w =>
        cases w with
        | empty => intro hp; simp at hp
        | junk => intro hp; simp at hp
        | tok t₂ =>
          revert hw
          cases hv : jwtVerify t₂ secret now with
          | none => intro hw hp; simp [hv] at hp
          | some q =>
            intro hw hp
            refine ⟨ws, t₂, rfl, hw, ?_⟩
            have hqp : q = p := by simpa [hv] using hp
            subst hqp
            unfold jwtVerify at hv
            by_cases hc : t₂.sig = (t₂.payload, secret) ∧ now < t₂.payload.exp
            · rw [if_pos hc] at hv
              cases hv
              exact ⟨rfl, hc.1, hc.2⟩
            · rw [if_neg hc] at hv
              cases hv
  · intro r s₂ name salt hreg
    unfold register at hreg
    split at hreg
    · cases hreg
    · split at hreg
      · cases hreg
      · obtain ⟨h1, -⟩ := Prod.mk.injEq .. ▸ hreg
        obtain rfl : _ = r := Except.ok.injEq .. ▸ h1
        exact authenticate_signToken s.nextUserId (normalizeEmail email)
          secret t0 now
  · intro r hlog
    unfold login at hlog
    split at hlog
    · cases hlog
    · split at hlog
      · cases hlog
      · rename_i u heq
        split at hlog
        · cases hlog
          exact authenticate_signToken u.id u.email secret t0 now
        · cases hlog
  · intro hsig
    constructor
    · intro p₂ hp₂
      unfold jwtVerify
      rw [if_neg]
      rintro ⟨h1, -⟩
      rw [hsig] at h1
      exact hp₂ (Prod.mk.injEq .. ▸ h1).1.symm
    · intro sg hsg
      unfold jwtVerify
      rw [if_neg]
      rintro ⟨h1, -⟩
      exact hsg h1


/-- Witness for **C3** at concrete inputs: a register on the empty store at
instant 0 yields a token accepted at instant 100 with the signed pair, and
rejected at instant 86400. -/
theorem authenticate_token_spec_witness :
    authenticateToken
        (some [.junk, .tok (signToken 1 "a@b.c" "s" 0)]) "s" 100 =
      .ok ⟨1, "a@b.c", 86400⟩ ∧
    authenticateToken
        (some [.junk, .tok (signToken 1 "a@b.c" "s" 0)]) "s" 86400 =
      .error .invalidToken := by
  have h := (authenticate_token_spec
    (some [.junk, .tok (signToken 1 "a@b.c" "s" 0)]) "s" 100 0
    (signToken 1 "a@b.c" "s" 0) initStore "A@b.c" "secret1").2.2.2.1
  have h2 := (authenticate_token_spec
    (some [.junk, .tok (signToken 1 "a@b.c" "s" 0)]) "s" 86400 0
    (signToken 1 "a@b.c" "s" 0) initStore "A@b.c" "secret1").2.2.2.1
  have hreg : register initStore "A@b.c" "secret1" "Al" 7 "s" 0 =
      (.ok ⟨⟨1, "a@b.c", "Al", 0⟩, signToken 1 "a@b.c" "s" 0⟩,
       { initStore with
         users := [⟨1, "a@b.c", bcryptHash "secret1" 7, "Al", 0⟩],
         nextUserId := 2 }) := by
    rfl
  constructor
  · exact (h _ _ "Al" 7 hreg).1 (by decide)
  · exact (h2 _ _ "Al" 7 hreg).2 (by decide)

/-- A failed registration leaves the store untouched. -/
theorem register_err_frame (s : DataStore) (email password name : String)
    (salt : Nat) (secret : String) (now : Nat) (e : ApiError) (s₂ : DataStore)
    (h : register s email password name salt secret now = (.error e, s₂)) :
    s₂ = s := by
  unfold register at h
  split at h
  · cases h; rfl
  · split at h
    · cases h; rfl
    · cases h

/-- `login` never changes the store. -/
theorem login_snd (s : DataStore) (email password secret : String) (now : Nat) :
    (login s email password secret now).2 = s := by
  unfold login
  split
  · rfl
  · split
    · rfl
    · split <;> rfl

/-- `profile` never changes the store. -/
theorem profile_snd (s : DataStore) (actorId : Nat) :
    (profile s actorId).2 = s := by
  unfold profile
  split <;> rfl

/-- A failed post creation leaves the store untouched. -/
theorem createPost_err_frame (s : DataStore) (actorId : Nat)
    (title content : String) (now : Nat) (e : ApiError) (s₂ : DataStore)
    (h : createPost s actorId title content now = (.error e, s₂)) : s₂ = s := by
  unfold createPost at h
  split at h
  · cases h; rfl
  · cases h

/-- A failed post update leaves the store untouched. -/
theorem updatePost_err_frame (s : DataStore) (actorId postId : Nat)
    (title content : Option String) (now : Nat) (e : ApiError) (s₂ : DataStore)
    (h : updatePost s actorId postId title content now = (.error e, s₂)) :
    s₂ = s := by
  unfold updatePost at h
  split at h
  · cases h; rfl
  · split at h
    · cases h; rfl
    · cases h

/-- A failed post deletion leaves the store untouched. -/
theorem deletePost_err_frame (s : DataStore) (actorId postId : Nat)
    (e : ApiError) (s₂ : DataStore)
    (h : deletePost s actorId postId = (.error e, s₂)) : s₂ = s := by
  unfold deletePost at h
  split at h
  · cases h; rfl
  · split at h
    · cases h; rfl
    · cases h

/-- **C10.**  Every failing request is atomic: whenever a request is answered
with an error outcome (validation, conflict, credential, token, not-found or
ownership failure), the users, the posts and both id counters are exactly as
they were before the call. -/
theorem failing_requests_atomic (secret : String) (s : DataStore) (r : Request)
    (e : ApiError) (hp : (stepDev secret s r).1 = .err e) :
    (stepDev secret s r).2 = s := by
  cases r with
  | register email password name salt now =>
    simp only [stepDev] at hp ⊢
    revert hp
    cases hx : register s email password name salt secret now with
    | mk res s₂ =>
      intro hp
      cases res with
      | error e₂ =>
        exact register_err_frame s email password name salt secret now e₂ s₂ hx
      | ok rr => cases hp
  | login email password now =>
    simp only [stepDev] at hp ⊢
    revert hp
    cases hx : login s email password secret now with
    | mk res s₂ =>
      intro hp
      cases res with
      | error e₂ =>
        have h2 := login_snd s email password secret now
        rw [hx] at h2
        exact h2
      | ok rr => cases hp
  | profile hdr now =>
    simp only [stepDev] at hp ⊢
    revert hp
    cases hauth : authenticateToken hdr secret now with
    | error a => intro hp; rfl
    | ok payload =>
      intro hp
      replace hp : (ofExcept Response.profileUser (profile s payload.id)).1 =
          Response.err e := hp
      show (ofExcept Response.profileUser (profile s payload.id)).2 = s
      revert hp
      cases hx : profile s payload.id with
      | mk res s₂ =>
        intro hp
        cases res with
        | error e₂ =>
          have h2 := profile_snd s payload.id
          rw [hx] at h2
          exact h2
        | ok u => cases hp
  | listPosts =>
    simp only [stepDev] at hp
    cases hp
  | createPost hdr title content now =>
    simp only [stepDev] at hp ⊢
    revert hp
    cases hauth : authenticateToken hdr secret now with
    | error a => intro hp; rfl
    | ok payload =>
      intro hp
      replace hp : (ofExcept Response.postCreated
          (createPost s payload.id title content now)).1 = Response.err e := hp
      show (ofExcept Response.postCreated
          (createPost s payload.id title content now)).2 = s
      revert hp
      cases hx : createPost s payload.id title content now with
      | mk res s₂ =>
        intro hp
        cases res with
        | error e₂ =>
          exact createPost_err_frame s payload.id title content now e₂ s₂ hx
        | ok p₂ => cases hp
  | updatePost hdr idStr title content now =>
    simp only [stepDev] at hp ⊢
    revert hp
    cases hauth : authenticateToken hdr secret now with
    | error a => intro hp; rfl
    | ok payload =>
      intro hp
      replace hp : (match parseIntJs idStr with
          | none => (Response.err ApiError.notFound, s)
          | some pid =>
            ofExcept Response.postUpdated
              (updatePost s payload.id pid title content now)).1 =
          Response.err e := hp
      show (match parseIntJs idStr with
          | none => (Response.err ApiError.notFound, s)
          | some pid =>
            ofExcept Response.postUpdated
              (updatePost s payload.id pid title content now)).2 = s
      revert hp
      cases hid : parseIntJs idStr with
      | none => intro hp; rfl
      | some pid =>
        intro hp
        replace hp : (ofExcept Response.postUpdated
            (updatePost s payload.id pid title content now)).1 =
            Response.err e := hp
        show (ofExcept Response.postUpdated
            (updatePost s payload.id pid title content now)).2 = s
        revert hp
        cases hx : updatePost s payload.id pid title content now with
        | mk res s₂ =>
          intro hp
          cases res with
          | error e₂ =>
            exact updatePost_err_frame s payload.id pid title content now e₂
              s₂ hx
          | ok p₂ => cases hp
  | deletePost hdr idStr now =>
    simp only [stepDev] at hp ⊢
    revert hp
    cases hauth : authenticateToken hdr secret now with
    | error a => intro hp; rfl
    | ok payload =>
      intro hp
      replace hp : (match parseIntJs idStr with
          | none => (Response.err ApiError.notFound, s)
          | some pid =>
            ofExcept (fun _ => Response.postDeleted)
              (deletePost s payload.id pid)).1 = Response.err e := hp
      show (match parseIntJs idStr with
          | none => (Response.err ApiError.notFound, s)
          | some pid =>
            ofExcept (fun _ => Response.postDeleted)
              (deletePost s payload.id pid)).2 = s
      revert hp
      cases hid : parseIntJs idStr with
      | none => intro hp; rfl
      | some pid =>
        intro hp
        replace hp : (ofExcept (fun _ => Response.postDeleted)
            (deletePost s payload.id pid)).1 = Response.err e := hp
        show (ofExcept (fun _ => Response.postDeleted)
            (deletePost s payload.id pid)).2 = s
        revert hp
        cases hx : deletePost s payload.id pid with
        | mk res s₂ =>
          intro hp
          cases res with
          | error e₂ =>
            exact deletePost_err_frame s payload.id pid e₂ s₂ hx
          | ok u => cases hp

/-- Witness for **C10** at a concrete input: a registration with a malformed
email fails and leaves the initial store exactly as it was. -/
theorem failing_requests_atomic_witness :
    (stepDev "s" initStore (.register "bad" "secret1" "Bob" 0 5)).2 =
      initStore :=
  failing_requests_atomic "s" initStore
    (.register "bad" "secret1" "Bob" 0 5) .validationError (by decide)

/-- `postDesc` is transitive. -/
theorem postDesc_trans (a b c : EnrichedPost) (hab : postDesc a b)
    (hbc : postDesc b c) : postDesc a c := by
  simp only [postDesc, decide_eq_true_eq] at *
  exact Nat.le_trans hbc hab

/-- `postDesc` is total. -/
theorem postDesc_total (a b : EnrichedPost) : postDesc a b || postDesc b a := by
  simp only [postDesc, Bool.or_eq_true, decide_eq_true_eq]
  exact Nat.le_total b.post.created_at a.post.created_at

/-- **C7.**  The post listing of the in-memory variant holds every stored
post exactly once (it is a permutation of the enrichment of the store),
ordered by `created_at` descending, each post carrying its author's name and
email when the author is found and the placeholder author otherwise. -/
theorem listPosts_enriched_sorted (s : DataStore) :
    (listPosts s).Perm (s.posts.map (enrichPost s.users)) ∧
    (listPosts s).Pairwise
      (fun a b => b.post.created_at ≤ a.post.created_at) ∧
    (∀ p u, s.users.find? (fun v => v.id == p.user_id) = some u →
      enrichPost s.users p = ⟨p, u.name, u.email⟩) ∧
    (∀ p, s.users.find? (fun v => v.id == p.user_id) = none →
      enrichPost s.users p = ⟨p, "Unknown", "unknown@example.com"⟩) := by
  refine ⟨List.mergeSort_perm _ _, ?_, ?_, ?_⟩
  · have h := List.sorted_mergeSort postDesc_trans postDesc_total
      (s.posts.map (enrichPost s.users))
    exact h.imp (fun hab => by
      simpa [postDesc, decide_eq_true_eq] using hab)
  · intro p u hu
    simp [enrichPost, hu]
  · intro p hnone
    simp [enrichPost, hnone]

/-- Witness for **C7** at a concrete input: in `demoStore`, post 1 is
enriched with Alice's name and email, and a post owned by a missing user 9
would be enriched with the placeholder. -/
theorem listPosts_enriched_sorted_witness :
    enrichPost demoStore.users ⟨1, "Hi", "World", 1, 20, 20⟩ =
      ⟨⟨1, "Hi", "World", 1, 20, 20⟩, "Alice", "a@b.c"⟩ ∧
    enrichPost demoStore.users ⟨7, "T", "C", 9, 21, 21⟩ =
      ⟨⟨7, "T", "C", 9, 21, 21⟩, "Unknown", "unknown@example.com"⟩ :=
  ⟨(listPosts_enriched_sorted demoStore).2.2.1 ⟨1, "Hi", "World", 1, 20, 20⟩
      ⟨1, "a@b.c", bcryptHash "secret1" 7, "Alice", 10⟩ (by decide),
   (listPosts_enriched_sorted demoStore).2.2.2 ⟨7, "T", "C", 9, 21, 21⟩
      (by decide)⟩

/-- The store component of `ofExcept` is the store component of its input. -/
theorem ofExcept_snd {α : Type} (f : α → Response)
    (x : Except ApiError α × DataStore) : (ofExcept f x).2 = x.2 := by
  cases x with
  | mk res s₂ => cases res <;> rfl

/-- `createPost` never changes the user table. -/
theorem createPost_users (s : DataStore) (actorId : Nat)
    (title content : String) (now : Nat) :
    (createPost s actorId title content now).2.users = s.users := by
  unfold createPost
  split <;> rfl

/-- `updatePost` never changes the user table. -/
theorem updatePost_users (s : DataStore) (actorId postId : Nat)
    (title content : Option String) (now : Nat) :
    (updatePost s actorId postId title content now).2.users = s.users := by
  unfold updatePost
  split
  · rfl
  · split <;> rfl

/-- `deletePost` never changes the user table. -/
theorem deletePost_users (s : DataStore) (actorId postId : Nat) :
    (deletePost s actorId postId).2.users = s.users := by
  unfold deletePost
  split
  · rfl
  · split <;> rfl

/-- `register` either leaves the user table unchanged or appends one user
whose email no existing user carries. -/
theorem register_users_shape (s : DataStore) (email password name : String)
    (salt : Nat) (secret : String) (now : Nat) :
    (register s email password name salt secret now).2.users = s.users ∨
    ∃ u, (register s email password name salt secret now).2.users =
        s.users ++ [u] ∧
      s.users.find? (fun v => v.email == u.email) = none := by
  unfold register
  split
  · exact Or.inl rfl
  · split
    · exact Or.inl rfl
    · rename_i hfind
      exact Or.inr ⟨_, rfl, hfind⟩

/-- Any single request either leaves the user table unchanged or appends one
user with a fresh email. -/
theorem stepDev_users_shape (secret : String) (s : DataStore) (r : Request) :
    (stepDev secret s r).2.users = s.users ∨
    ∃ u, (stepDev secret s r).2.users = s.users ++ [u] ∧
      s.users.find? (fun v => v.email == u.email) = none := by
  cases r with
  | register email password name salt now =>
    simp only [stepDev]
    rw [ofExcept_snd]
    exact register_users_shape s email password name salt secret now
  | login email password now =>
    left
    simp only [stepDev]
    rw [ofExcept_snd, login_snd]
  | profile hdr now =>
    left
    simp only [stepDev]
    cases hauth : authenticateToken hdr secret now with
    | error a => rfl
    | ok payload =>
      show (ofExcept Response.profileUser (profile s payload.id)).2.users =
        s.users
      rw [ofExcept_snd, profile_snd]
  | listPosts => exact Or.inl rfl
  | createPost hdr title content now =>
    left
    simp only [stepDev]
    cases hauth : authenticateToken hdr secret now with
    | error a => rfl
    | ok payload =>
      show (ofExcept Response.postCreated
          (createPost s payload.id title content now)).2.users = s.users
      rw [ofExcept_snd]
      exact createPost_users s payload.id title content now
  | updatePost hdr idStr title content now =>
    left
    simp only [stepDev]
    cases hauth : authenticateToken hdr secret now with
    | error a => rfl
    | ok payload =>
      show (match parseIntJs idStr with
          | none => (Response.err ApiError.notFound, s)
          | some pid => ofExcept Response.postUpdated
              (updatePost s payload.id pid title content now)).2.users =
        s.users
      cases hid : parseIntJs idStr with
      | none => rfl
      | some pid =>
        show (ofExcept Response.postUpdated
            (updatePost s payload.id pid title content now)).2.users = s.users
        rw [ofExcept_snd]
        exact updatePost_users s payload.id pid title content now
  | deletePost hdr idStr now =>
    left
    simp only [stepDev]
    cases hauth : authenticateToken hdr secret now with
    | error a => rfl
    | ok payload =>
      show (match parseIntJs idStr with
          | none => (Response.err ApiError.notFound, s)
          | some pid => ofExcept (fun _ => Response.postDeleted)
              (deletePost s payload.id pid)).2.users = s.users
      cases hid : parseIntJs idStr with
      | none => rfl
      | some pid =>
        show (ofExcept (fun _ => Response.postDeleted)
            (deletePost s payload.id pid)).2.users = s.users
        rw [ofExcept_snd]
        exact deletePost_users s payload.id pid

/-- One request preserves pairwise distinctness of the stored emails. -/
theorem emailsNodup_step (secret : String) (s : DataStore) (r : Request)
    (h : (s.users.map (fun u => u.email)).Nodup) :
    (((stepDev secret s r).2).users.map (fun u => u.email)).Nodup := by
  rcases stepDev_users_shape secret s r with heq | ⟨u, heq, hfind⟩
  · rw [heq]; exact h
  · rw [heq, List.map_append]
    refine List.Nodup.append h (List.nodup_singleton _) ?_
    intro a ha hmem
    obtain ⟨x, hx, hxe⟩ := List.mem_map.mp ha
    have hne := List.find?_eq_none.mp hfind x hx
    have ha2 : a = u.email := by simpa using hmem
    apply hne
    simp [hxe, ha2]

/-- The tail store of a non-empty run. -/
theorem runDev_cons_snd (secret : String) (s : DataStore) (r : Request)
    (rs : List Request) :
    (runDev secret s (r :: rs)).2 =
      (runDev secret (stepDev secret s r).2 rs).2 := rfl

/-- A whole request sequence preserves pairwise distinctness of the stored
emails. -/
theorem emailsNodup_run (secret : String) (s : DataStore) (rs : List Request)
    (h : (s.users.map (fun u => u.email)).Nodup) :
    (((runDev secret s rs).2).users.map (fun u => u.email)).Nodup := by
  induction rs generalizing s with
  | nil => exact h
  | cons r rs ih =>
    rw [runDev_cons_snd]
    exact ih (stepDev secret s r).2 (emailsNodup_step secret s r h)

/-- **C1.**  Email uniqueness is an invariant of the user store: after every
request sequence from the initial store, no two stored users share an email
(stored emails are the normalized submitted emails); and registering twice
with the same fields yields one success and a 409 Conflict on the second
call, which adds no user. -/
theorem email_uniqueness_invariant (secret : String) (rs : List Request)
    (email password name : String) (salt₁ salt₂ now₁ now₂ : Nat)
    (s s₁ : DataStore) (r : RegisterOk) :
    (((runDev secret initStore rs).2).users.map (fun u => u.email)).Nodup ∧
    (register s email password name salt₁ secret now₁ = (.ok r, s₁) →
      register s₁ email password name salt₂ secret now₂ =
        (.error .conflict, s₁)) := by
  constructor
  · exact emailsNodup_run secret initStore rs List.nodup_nil
  · intro hfirst
    unfold register at hfirst
    split at hfirst
    · cases hfirst
    · rename_i hval
      split at hfirst
      · cases hfirst
      · rename_i hfind
        obtain ⟨-, hs₁⟩ := Prod.mk.injEq .. ▸ hfirst
        unfold register
        rw [if_neg hval]
        have husers : s₁.users = s.users ++
            [⟨s.nextUserId, normalizeEmail email,
              bcryptHash password salt₁, strTrim name, now₁⟩] := by
          rw [← hs₁]
        have hx : s₁.users.find?
            (fun v => v.email == normalizeEmail email) =
            some ⟨s.nextUserId, normalizeEmail email,
              bcryptHash password salt₁, strTrim name, now₁⟩ := by
          rw [husers, List.find?_append, hfind]
          simp
        rw [hx]

/-- Witness for **C1** at concrete inputs: after registering Alice on the
empty store, the stored emails are distinct, and repeating the registration
is answered 409 Conflict without adding a user. -/
theorem email_uniqueness_invariant_witness :
    (((runDev "s" initStore
        [.register "A@b.c" "secret1" "Al" 1 5]).2).users.map
          (fun u => u.email)).Nodup ∧
    register
        { initStore with
          users := [⟨1, "a@b.c", bcryptHash "secret1" 1, "Al", 5⟩],
          nextUserId := 2 }
        "A@b.c" "secret1" "Al" 2 "s" 6 =
      (.error .conflict,
       { initStore with
         users := [⟨1, "a@b.c", bcryptHash "secret1" 1, "Al", 5⟩],
         nextUserId := 2 }) :=
  ⟨(email_uniqueness_invariant "s" [.register "A@b.c" "secret1" "Al" 1 5]
      "A@b.c" "secret1" "Al" 1 2 5 6 initStore
      { initStore with
        users := [⟨1, "a@b.c", bcryptHash "secret1" 1, "Al", 5⟩],
        nextUserId := 2 }
      ⟨⟨1, "a@b.c", "Al", 5⟩, signToken 1 "a@b.c" "s" 5⟩).1,
   (email_uniqueness_invariant "s" []
      "A@b.c" "secret1" "Al" 1 2 5 6 initStore
      { initStore with
        users := [⟨1, "a@b.c", bcryptHash "secret1" 1, "Al", 5⟩],
        nextUserId := 2 }
      ⟨⟨1, "a@b.c", "Al", 5⟩, signToken 1 "a@b.c" "s" 5⟩).2 rfl⟩

/-- An all-digit character list is its own digit prefix. -/
theorem takeWhile_digits (cs : List Char) (h : cs.all Char.isDigit = true) :
    cs.takeWhile Char.isDigit = cs := by
  induction cs with
  | nil => rfl
  | cons c rest ih =>
    simp only [List.all_cons, Bool.and_eq_true] at h
    simp [List.takeWhile_cons, h.1, ih h.2]

/-- On a plain decimal numeral within the int4 range, `parseInt` and the SQL
integer cast agree and both succeed. -/
theorem parse_agree (idStr : String)
    (h : (!idStr.data.isEmpty && idStr.data.all Char.isDigit &&
      digitsToNat idStr.data ≤ 2147483647) = true) :
    parseIntJs idStr = some (digitsToNat idStr.data) ∧
    pgCastInt idStr = some (digitsToNat idStr.data) := by
  rw [Bool.and_eq_true, Bool.and_eq_true, Bool.not_eq_true'] at h
  constructor
  · simp [parseIntJs, takeWhile_digits idStr.data h.1.2, h.1.1]
  · simp [pgCastInt, h.1.1, h.1.2, h.2]

/-- Updating every matching post is the identity when no post matches. -/
theorem updateAll_of_not_mem (ps : List Post) (pid : Nat) (q : Post)
    (h : ∀ x ∈ ps, (x.id == pid) = false) : updateAll ps pid q = ps := by
  induction ps with
  | nil => rfl
  | cons p rest ih =>
    have h1 := h p (List.mem_cons_self p rest)
    simp only [updateAll, List.map_cons, h1, Bool.false_eq_true, if_false]
    exact congrArg (List.cons p)
      (ih (fun x hx => h x (List.mem_cons_of_mem p hx)))

/-- Filtering out a missing id keeps every post. -/
theorem filter_of_not_mem (ps : List Post) (pid : Nat)
    (h : ∀ x ∈ ps, (x.id == pid) = false) :
    ps.filter (fun p => !(p.id == pid)) = ps := by
  induction ps with
  | nil => rfl
  | cons p rest ih =>
    have h1 := h p (List.mem_cons_self p rest)
    rw [List.filter_cons]
    simp only [h1, Bool.not_false, if_true]
    exact congrArg (List.cons p)
      (ih (fun x hx => h x (List.mem_cons_of_mem p hx)))

/-- When the head carries the id of a duplicate-free list, the tail does
not. -/
theorem rest_no_id (p : Post) (rest : List Post) (pid : Nat)
    (hnotin : p.id ∉ rest.map (fun x => x.id)) (hpid : p.id = pid) :
    ∀ x ∈ rest, (x.id == pid) = false := by
  intro x hx
  apply Bool.eq_false_iff.mpr
  intro hcontr
  apply hnotin
  have hxp : x.id = pid := by simpa using hcontr
  rw [hpid, ← hxp]
  exact List.mem_map_of_mem (fun x => x.id) hx

/-- Under pairwise-distinct ids, updating the first matching post and
updating every matching post (the SQL `UPDATE ... WHERE id =`) coincide. -/
theorem updateFirst_eq_updateAll (ps : List Post) (pid : Nat) (q : Post)
    (hnd : (ps.map (fun p => p.id)).Nodup) :
    updateFirst ps pid q = updateAll ps pid q := by
  induction ps with
  | nil => rfl
  | cons p rest ih =>
    rw [List.map_cons, List.nodup_cons] at hnd
    by_cases hp : (p.id == pid) = true
    · have hpid : p.id = pid := by simpa using hp
      simp only [updateFirst, updateAll, List.map_cons, hp, if_true]
      exact congrArg (List.cons q)
        (updateAll_of_not_mem rest pid q (rest_no_id p rest pid hnd.1 hpid)).symm
    · have hp2 : (p.id == pid) = false := Bool.eq_false_iff.mpr hp
      simp only [updateFirst, updateAll, List.map_cons, hp2,
        Bool.false_eq_true, if_false]
      exact congrArg (List.cons p) (ih hnd.2)

/-- Under pairwise-distinct ids, removing the first matching post and the SQL
`DELETE ... WHERE id =` coincide. -/
theorem removeFirst_eq_filter (ps : List Post) (pid : Nat)
    (hnd : (ps.map (fun p => p.id)).Nodup) :
    removeFirst ps pid = ps.filter (fun p => !(p.id == pid)) := by
  induction ps with
  | nil => rfl
  | cons p rest ih =>
    rw [List.map_cons, List.nodup_cons] at hnd
    rw [List.filter_cons]
    by_cases hp : (p.id == pid) = true
    · have hpid : p.id = pid := by simpa using hp
      simp only [removeFirst, hp, Bool.not_true, Bool.false_eq_true, if_false,
        if_true]
      exact (filter_of_not_mem rest pid (rest_no_id p rest pid hnd.1 hpid)).symm
    · have hp2 : (p.id == pid) = false := Bool.eq_false_iff.mpr hp
      simp only [removeFirst, hp2, Bool.not_false, Bool.false_eq_true,
        if_false, if_true]
      exact congrArg (List.cons p) (ih hnd.2)

/-- Replacing a post by one with the same id keeps the id list. -/
theorem updateFirst_map_id (ps : List Post) (pid : Nat) (q : Post)
    (hq : q.id = pid) :
    (updateFirst ps pid q).map (fun p => p.id) = ps.map (fun p => p.id) := by
  induction ps with
  | nil => rfl
  | cons p rest ih =>
    by_cases hp : (p.id == pid) = true
    · have hpid : p.id = pid := by simpa using hp
      simp only [updateFirst, hp, if_true, List.map_cons]
      rw [hq, hpid]
    · have hp2 : (p.id == pid) = false := Bool.eq_false_iff.mpr hp
      simp only [updateFirst, hp2, Bool.false_eq_true, if_false,
        List.map_cons]
      exact congrArg (List.cons p.id) ih

/-- A member of an in-place update is an old post or the replacement. -/
theorem mem_updateFirst (ps : List Post) (pid : Nat) (q x : Post)
    (hx : x ∈ updateFirst ps pid q) : x ∈ ps ∨ x = q := by
  induction ps with
  | nil => cases hx
  | cons p rest ih =>
    unfold updateFirst at hx
    by_cases hp : (p.id == pid) = true
    · rw [if_pos hp] at hx
      rcases List.mem_cons.mp hx with h | h
      · exact Or.inr h
      · exact Or.inl (List.mem_cons_of_mem p h)
    · rw [if_neg hp] at hx
      rcases List.mem_cons.mp hx with h | h
      · exact Or.inl (h ▸ List.mem_cons_self p rest)
      · rcases ih h with h2 | h2
        · exact Or.inl (List.mem_cons_of_mem p h2)
        · exact Or.inr h2

/-- Splicing a post out yields a sublist. -/
theorem removeFirst_sublist (ps : List Post) (pid : Nat) :
    List.Sublist (removeFirst ps pid) ps := by
  induction ps with
  | nil => exact List.Sublist.refl _
  | cons p rest ih =>
    unfold removeFirst
    by_cases hp : (p.id == pid) = true
    · rw [if_pos hp]
      exact List.sublist_cons_self p rest
    · rw [if_neg hp]
      exact List.Sublist.cons₂ p ih

/-- With every author present, the placeholder enrichment agrees with the
inner-join enrichment. -/
theorem enrich_map_eq_filterMap (users : List User) (ps : List Post)
    (h : ∀ p ∈ ps, (users.find? (fun u => u.id == p.user_id)).isSome) :
    ps.map (enrichPost users) =
      ps.filterMap (fun p =>
        (users.find? (fun u => u.id == p.user_id)).map
          (fun u => EnrichedPost.mk p u.name u.email)) := by
  induction ps with
  | nil => rfl
  | cons p rest ih =>
    rw [List.map_cons, List.filterMap_cons]
    cases hf : users.find? (fun u => u.id == p.user_id) with
    | none =>
      have h0 := h p (List.mem_cons_self p rest)
      rw [hf] at h0
      cases h0
    | some u =>
      have he : enrichPost users p = ⟨p, u.name, u.email⟩ := by
        simp [enrichPost, hf]
      rw [he]
      exact congrArg (List.cons (EnrichedPost.mk p u.name u.email))
        (ih (fun x hx => h x (List.mem_cons_of_mem p hx)))

/-- With every author present, the two post listings agree. -/
theorem listPosts_eq_db (s : DataStore)
    (h : ∀ p ∈ s.posts,
      (s.users.find? (fun u => u.id == p.user_id)).isSome) :
    listPosts s = listPostsDb s := by
  unfold listPosts listPostsDb
  rw [enrich_map_eq_filterMap s.users s.posts h]

/-- With the actor's user row present, the FOREIGN KEY cannot fire and the
two post creations agree. -/
theorem createPost_eq_db (s : DataStore) (actorId : Nat)
    (title content : String) (now : Nat)
    (h : (s.users.find? (fun u => u.id == actorId)).isSome) :
    createPost s actorId title content now =
      createPostDb s actorId title content now := by
  unfold createPost createPostDb
  by_cases hval : (strEmpty title || strEmpty content) = true
  · rw [if_pos hval, if_pos hval]
  · rw [if_neg hval, if_neg hval]
    have h2 : (s.users.find? (fun u => u.id == actorId)).isNone = false := by
      cases hf : s.users.find? (fun u => u.id == actorId) with
      | none => rw [hf] at h; cases h
      | some u => rfl
    rw [if_neg (by simp [h2])]

/-- Under pairwise-distinct post ids, the two post updates agree. -/
theorem updatePost_eq_db (s : DataStore) (actorId postId : Nat)
    (title content : Option String) (now : Nat)
    (hnd : (s.posts.map (fun p => p.id)).Nodup) :
    updatePost s actorId postId title content now =
      updatePostDb s actorId postId title content now := by
  unfold updatePost updatePostDb
  split
  · rfl
  · split
    · rfl
    · rw [updateFirst_eq_updateAll s.posts postId _ hnd]

/-- Under pairwise-distinct post ids, the two post deletions agree. -/
theorem deletePost_eq_db (s : DataStore) (actorId postId : Nat)
    (hnd : (s.posts.map (fun p => p.id)).Nodup) :
    deletePost s actorId postId = deletePostDb s actorId postId := by
  unfold deletePost deletePostDb
  split
  · rfl
  · split
    · rfl
    · rw [removeFirst_eq_filter s.posts postId hnd]

/-- The initial store satisfies the invariant. -/
theorem Inv_initStore : Inv initStore :=
  ⟨List.nodup_nil, fun p hp => absurd hp (List.not_mem_nil p),
   fun p hp => absurd hp (List.not_mem_nil p)⟩

/-- `register` leaves the post table and its counter unchanged. -/
theorem register_posts (s : DataStore) (email password name : String)
    (salt : Nat) (secret : String) (now : Nat) :
    (register s email password name salt secret now).2.posts = s.posts ∧
    (register s email password name salt secret now).2.nextPostId =
      s.nextPostId := by
  unfold register
  split
  · exact ⟨rfl, rfl⟩
  · split
    · exact ⟨rfl, rfl⟩
    · exact ⟨rfl, rfl⟩

/-- Registration preserves the store invariant. -/
theorem Inv_register (s : DataStore) (email password name : String)
    (salt : Nat) (secret : String) (now : Nat) (hInv : Inv s) :
    Inv (register s email password name salt secret now).2 := by
  obtain ⟨hposts, hnext⟩ := register_posts s email password name salt secret now
  refine ⟨?_, ?_, ?_⟩
  · rw [hposts]
    exact hInv.postsNodup
  · rw [hposts, hnext]
    exact hInv.postIdLt
  · intro p hp
    rw [hposts] at hp
    rcases register_users_shape s email password name salt secret now with
      heq | ⟨u, heq, -⟩
    · rw [heq]
      exact hInv.authors p hp
    · rw [heq, List.find?_append]
      have h0 := hInv.authors p hp
      cases hfu : s.users.find? (fun v => v.id == p.user_id) with
      | none => rw [hfu] at h0; cases h0
      | some x => rfl

/-- Post creation by a registered actor preserves the store invariant. -/
theorem Inv_createPost (s : DataStore) (actorId : Nat)
    (title content : String) (now : Nat) (hInv : Inv s)
    (hact : (s.users.find? (fun u => u.id == actorId)).isSome) :
    Inv (createPost s actorId title content now).2 := by
  unfold createPost
  split
  · exact hInv
  · refine ⟨?_, ?_, ?_⟩
    · show ((s.posts ++
        [(⟨s.nextPostId, strTrim title, strTrim content, actorId, now,
           now⟩ : Post)]).map (fun p => p.id)).Nodup
      rw [List.map_append]
      refine List.Nodup.append hInv.postsNodup (List.nodup_singleton _) ?_
      intro a ha hmem
      obtain ⟨x, hx, hxe⟩ := List.mem_map.mp ha
      have hlt := hInv.postIdLt x hx
      have ha2 : a = s.nextPostId := by simpa using hmem
      rw [hxe, ha2] at hlt
      exact absurd hlt (Nat.lt_irrefl _)
    · intro p hp
      show p.id < s.nextPostId + 1
      replace hp : p ∈ s.posts ++
        [(⟨s.nextPostId, strTrim title, strTrim content, actorId, now,
           now⟩ : Post)] := hp
      rcases List.mem_append.mp hp with h | h
      · exact Nat.lt_succ_of_lt (hInv.postIdLt p h)
      · have hpe : p = ⟨s.nextPostId, strTrim title, strTrim content,
          actorId, now, now⟩ := by simpa using h
        rw [hpe]
        exact Nat.lt_succ_self _
    · intro p hp
      replace hp : p ∈ s.posts ++
        [(⟨s.nextPostId, strTrim title, strTrim content, actorId, now,
           now⟩ : Post)] := hp
      show (s.users.find? (fun u => u.id == p.user_id)).isSome
      rcases List.mem_append.mp hp with h | h
      · exact hInv.authors p h
      · have hpe : p = ⟨s.nextPostId, strTrim title, strTrim content,
          actorId, now, now⟩ := by simpa using h
        rw [hpe]
        exact hact

/-- Post update preserves the store invariant. -/
theorem Inv_updatePost (s : DataStore) (actorId postId : Nat)
    (title content : Option String) (now : Nat) (hInv : Inv s) :
    Inv (updatePost s actorId postId title content now).2 := by
  unfold updatePost
  split
  · exact hInv
  · split
    · exact hInv
    · rename_i post hf ho
      have hpid : post.id = postId := by simpa using List.find?_some hf
      have hmem := List.mem_of_find?_eq_some hf
      refine ⟨?_, ?_, ?_⟩
      · show ((updateFirst s.posts postId
          (appliedPost post title content now)).map (fun p => p.id)).Nodup
        rw [updateFirst_map_id s.posts postId
          (appliedPost post title content now)
          (show (appliedPost post title content now).id = postId from hpid)]
        exact hInv.postsNodup
      · intro p hp
        show p.id < s.nextPostId
        replace hp : p ∈ updateFirst s.posts postId
          (appliedPost post title content now) := hp
        rcases mem_updateFirst s.posts postId _ p hp with h | h
        · exact hInv.postIdLt p h
        · rw [h]
          show post.id < s.nextPostId
          exact hInv.postIdLt post hmem
      · intro p hp
        replace hp : p ∈ updateFirst s.posts postId
          (appliedPost post title content now) := hp
        show (s.users.find? (fun u => u.id == p.user_id)).isSome
        rcases mem_updateFirst s.posts postId _ p hp with h | h
        · exact hInv.authors p h
        · rw [h]
          show (s.users.find? (fun u => u.id == post.user_id)).isSome
          exact hInv.authors post hmem

/-- Post deletion preserves the store invariant. -/
theorem Inv_deletePost (s : DataStore) (actorId postId : Nat) (hInv : Inv s) :
    Inv (deletePost s actorId postId).2 := by
  unfold deletePost
  split
  · exact hInv
  · split
    · exact hInv
    · rename_i post hf ho
      have hsub := removeFirst_sublist s.posts postId
      refine ⟨?_, ?_, ?_⟩
      · show ((removeFirst s.posts postId).map (fun p => p.id)).Nodup
        exact List.Nodup.sublist (hsub.map (fun p => p.id)) hInv.postsNodup
      · intro p hp
        show p.id < s.nextPostId
        replace hp : p ∈ removeFirst s.posts postId := hp
        exact hInv.postIdLt p (hsub.subset hp)
      · intro p hp
        replace hp : p ∈ removeFirst s.posts postId := hp
        show (s.users.find? (fun u => u.id == p.user_id)).isSome
        exact hInv.authors p (hsub.subset hp)

/-- A well-formed request preserves the store invariant. -/
theorem Inv_step (secret : String) (s : DataStore) (r : Request) (hInv : Inv s)
    (hok : reqOkB secret s r = true) : Inv (stepDev secret s r).2 := by
  cases r with
  | register email password name salt now =>
    simp only [stepDev]
    rw [ofExcept_snd]
    exact Inv_register s email password name salt secret now hInv
  | login email password now =>
    simp only [stepDev]
    rw [ofExcept_snd, login_snd]
    exact hInv
  | profile hdr now =>
    simp only [stepDev]
    cases hauth : authenticateToken hdr secret now with
    | error a => exact hInv
    | ok payload =>
      show Inv (ofExcept Response.profileUser (profile s payload.id)).2
      rw [ofExcept_snd, profile_snd]
      exact hInv
  | listPosts => exact hInv
  | createPost hdr title content now =>
    simp only [stepDev]
    revert hok
    simp only [reqOkB]
    cases hauth : authenticateToken hdr secret now with
    | error a => intro hok; exact hInv
    | ok payload =>
      intro hok
      show Inv (ofExcept Response.postCreated
        (createPost s payload.id title content now)).2
      rw [ofExcept_snd]
      refine Inv_createPost s payload.id title content now hInv ?_
      exact (List.find?_isSome).mpr (List.any_eq_true.mp hok)
  | updatePost hdr idStr title content now =>
    simp only [stepDev]
    cases hauth : authenticateToken hdr secret now with
    | error a => exact hInv
    | ok payload =>
      show Inv (match parseIntJs idStr with
        | none => (Response.err ApiError.notFound, s)
        | some pid => ofExcept Response.postUpdated
            (updatePost s payload.id pid title content now)).2
      cases hid2 : parseIntJs idStr with
      | none => exact hInv
      | some pid =>
        show Inv (ofExcept Response.postUpdated
          (updatePost s payload.id pid title content now)).2
        rw [ofExcept_snd]
        exact Inv_updatePost s payload.id pid title content now hInv
  | deletePost hdr idStr now =>
    simp only [stepDev]
    cases hauth : authenticateToken hdr secret now with
    | error a => exact hInv
    | ok payload =>
      show Inv (match parseIntJs idStr with
        | none => (Response.err ApiError.notFound, s)
        | some pid => ofExcept (fun _ => Response.postDeleted)
            (deletePost s payload.id pid)).2
      cases hid2 : parseIntJs idStr with
      | none => exact hInv
      | some pid =>
        show Inv (ofExcept (fun _ => Response.postDeleted)
          (deletePost s payload.id pid)).2
        rw [ofExcept_snd]
        exact Inv_deletePost s payload.id pid hInv

/-- On an invariant store, a well-formed request gets the same answer and
leaves the same store in both variants. -/
theorem stepDev_eq_stepDb (secret : String) (s : DataStore) (r : Request)
    (hInv : Inv s) (hok : reqOkB secret s r = true)
    (hid : goodIdB r = true) :
    stepDev secret s r = stepDb secret s r := by
  cases r with
  | register email password name salt now => rfl
  | login email password now => rfl
  | profile hdr now => rfl
  | listPosts =>
    simp only [stepDev, stepDb]
    rw [listPosts_eq_db s hInv.authors]
  | createPost hdr title content now =>
    simp only [stepDev, stepDb]
    revert hok
    simp only [reqOkB]
    cases hauth : authenticateToken hdr secret now with
    | error a => intro hok; rfl
    | ok payload =>
      intro hok
      show ofExcept Response.postCreated
          (createPost s payload.id title content now) =
        ofExcept Response.postCreated
          (createPostDb s payload.id title content now)
      rw [createPost_eq_db s payload.id title content now
        ((List.find?_isSome).mpr (List.any_eq_true.mp hok))]
  | updatePost hdr idStr title content now =>
    simp only [stepDev, stepDb]
    cases hauth : authenticateToken hdr secret now with
    | error a => rfl
    | ok payload =>
      simp only [goodIdB] at hid
      obtain ⟨hp1, hp2⟩ := parse_agree idStr hid
      show (match parseIntJs idStr with
          | none => (Response.err ApiError.notFound, s)
          | some pid => ofExcept Response.postUpdated
              (updatePost s payload.id pid title content now)) =
        (match pgCastInt idStr with
          | none => (Response.err ApiError.internal, s)
          | some pid => ofExcept Response.postUpdated
              (updatePostDb s payload.id pid title content now))
      rw [hp1, hp2]
      show ofExcept Response.postUpdated
          (updatePost s payload.id (digitsToNat idStr.data)
            title content now) =
        ofExcept Response.postUpdated
          (updatePostDb s payload.id (digitsToNat idStr.data)
            title content now)
      rw [updatePost_eq_db s payload.id (digitsToNat idStr.data)
        title content now hInv.postsNodup]
  | deletePost hdr idStr now =>
    simp only [stepDev, stepDb]
    cases hauth : authenticateToken hdr secret now with
    | error a => rfl
    | ok payload =>
      simp only [goodIdB] at hid
      obtain ⟨hp1, hp2⟩ := parse_agree idStr hid
      show (match parseIntJs idStr with
          | none => (Response.err ApiError.notFound, s)
          | some pid => ofExcept (fun _ => Response.postDeleted)
              (deletePost s payload.id pid)) =
        (match pgCastInt idStr with
          | none => (Response.err ApiError.internal, s)
          | some pid => ofExcept (fun _ => Response.postDeleted)
              (deletePostDb s payload.id pid))
      rw [hp1, hp2]
      show ofExcept (fun _ => Response.postDeleted)
          (deletePost s payload.id (digitsToNat idStr.data)) =
        ofExcept (fun _ => Response.postDeleted)
          (deletePostDb s payload.id (digitsToNat idStr.data))
      rw [deletePost_eq_db s payload.id (digitsToNat idStr.data)
        hInv.postsNodup]

/-- Unfolding a non-empty in-memory run. -/
theorem runDev_cons (secret : String) (s : DataStore) (r : Request)
    (rs : List Request) :
    runDev secret s (r :: rs) =
      ((stepDev secret s r).1 ::
        (runDev secret (stepDev secret s r).2 rs).1,
       (runDev secret (stepDev secret s r).2 rs).2) := rfl

/-- Unfolding a non-empty database run. -/
theorem runDb_cons (secret : String) (s : DataStore) (r : Request)
    (rs : List Request) :
    runDb secret s (r :: rs) =
      ((stepDb secret s r).1 ::
        (runDb secret (stepDb secret s r).2 rs).1,
       (runDb secret (stepDb secret s r).2 rs).2) := rfl

/-- **C8, counterexample.**  The two variants are not functionally identical
as claimed: on the same single-request sequence — an authenticated update of
post id `"abc"` — the in-memory variant answers 404 NotFound (`parseInt`
yields `NaN`, which matches no post) while the database variant answers 500
Internal (the SQL cast of `"abc"` to integer throws); the same divergence
occurs on the plain decimal numeral `"2147483648"`, which exceeds the int4
range of `posts.id` (404 against an out-of-range cast error mapped to
500). -/
theorem server_variants_differ :
    (runDev "s" initStore
        [.updatePost (some [.junk, .tok (signToken 1 "a@b.c" "s" 0)])
          "abc" none none 1]).1 = [.err .notFound] ∧
    (runDb "s" initStore
        [.updatePost (some [.junk, .tok (signToken 1 "a@b.c" "s" 0)])
          "abc" none none 1]).1 = [.err .internal] ∧
    (runDev "s" initStore
        [.updatePost (some [.junk, .tok (signToken 1 "a@b.c" "s" 0)])
          "2147483648" none none 1]).1 = [.err .notFound] ∧
    (runDb "s" initStore
        [.updatePost (some [.junk, .tok (signToken 1 "a@b.c" "s" 0)])
          "2147483648" none none 1]).1 = [.err .internal] ∧
    ApiError.notFound ≠ ApiError.internal :=
  ⟨rfl, rfl, rfl, rfl, by decide⟩

/-- **C8, amended.**  For every request sequence that is well formed — every
update/delete id is a plain decimal numeral whose value fits the int4 range
of `posts.id`, and every accepted creation token names a registered user —
the two variants produce identical response sequences and identical final
stores, from any store satisfying the reachable-store invariant (in
particular from the initial store). -/
theorem server_variants_agree (secret : String) (rs : List Request)
    (s : DataStore) (hInv : Inv s)
    (hok : traceOkB secret s rs = true) :
    runDev secret s rs = runDb secret s rs := by
  induction rs generalizing s with
  | nil => rfl
  | cons r rs ih =>
    simp only [traceOkB, Bool.and_eq_true] at hok
    obtain ⟨⟨hreq, hid⟩, htail⟩ := hok
    have hstep := stepDev_eq_stepDb secret s r hInv hreq hid
    have ih2 := ih (stepDev secret s r).2 (Inv_step secret s r hInv hreq) htail
    rw [runDev_cons, runDb_cons, ← hstep, ih2]

/-- Witness for **C8 (amended)** at a concrete input: a registration followed
by a listing is answered identically by the two variants. -/
theorem server_variants_agree_witness :
    runDev "s" initStore
        [.register "A@b.c" "secret1" "Al" 1 5, .listPosts] =
      runDb "s" initStore
        [.register "A@b.c" "secret1" "Al" 1 5, .listPosts] :=
  server_variants_agree "s"
    [.register "A@b.c" "secret1" "Al" 1 5, .listPosts] initStore
    Inv_initStore (by decide)

end Backend
